import Mathlib

/-!
Verification development for the yab benchmark core: the run limiter, the
benchmark run controller (option validation, the RPS × duration cap on
MaxRequests, format dispatch), worker-state merging, and the reporter
(latency quantile keys, error summary, stream summary, elapsed/RPS
rounding).

Go machine integers are modelled as `Int`/`Nat` (no overflow is reachable
at the modelled values), `float64` arithmetic on the modelled paths is
exact decimal arithmetic and is modelled by `ℚ`, Go `map` values are
modelled extensionally (as functions) or as association lists where key
enumeration matters, and fallible code returns `Option`/`Except`.
-/

namespace limiter

/-- Modelled from the spec: the limiter implementation (`limiter.Run` with
`New`/`More`/`Stop`) is not part of the sources here, only its tests and
callers are.  Per the spec, the state is a stop flag, an optional shared
remaining-request counter (present iff `MaxRequests > 0`), and an optional
deadline (present iff `MaxDuration > 0`); the RPS token bucket only delays
calls and never changes a boolean outcome, so it is not part of the
observable state. -/
structure Run where
  stopped : Bool
  hasMax : Bool
  remaining : Nat
  hasDeadline : Bool
  deriving DecidableEq, Repr

/-- Modelled from the spec: `limiter.New(maxRequests, rps, maxDuration)`.
At construction: if `MaxDuration > 0` record a deadline; if
`MaxRequests > 0` initialize a shared counter.  `rps` only configures the
pacing bucket, which has no boolean effect. -/
def New (maxRequests rps maxDurationNs : Int) : Run :=
  { stopped := false
    hasMax := decide (0 < maxRequests)
    remaining := maxRequests.toNat
    hasDeadline := decide (0 < maxDurationNs) }

/-- Modelled from the spec: one atomic `More()` call.  Whether the deadline
has elapsed at the moment of the call is supplied by the oracle argument
`deadlineElapsed` (it can only be true when a deadline exists).  Steps:
stop flag set → false; deadline passed → false; shared counter at zero →
false; otherwise decrement the counter (when present) and return true. -/
def Run.More (s : Run) (deadlineElapsed : Bool) : Run × Bool :=
  if s.stopped then (s, false)
  else if s.hasDeadline && deadlineElapsed then (s, false)
  else if s.hasMax then
    if s.remaining = 0 then (s, false)
    else ({ s with remaining := s.remaining - 1 }, true)
  else (s, true)

/-- Modelled from the spec: `Stop()` sets the stop flag; it is idempotent
and safe to call repeatedly. -/
def Run.Stop (s : Run) : Run :=
  { s with stopped := true }

/-- One event of a concurrent history: since `More` is atomic (its callers
are serialized on the shared counter), an arbitrary concurrent execution
is an arbitrary interleaving, i.e. a sequence of atomic events. -/
inductive Event
  | more (deadlineElapsed : Bool)
  | stop
  deriving DecidableEq, Repr

/-- Run a sequence of events, collecting the boolean result of every
`More` call in order. -/
def execTrace (s : Run) : List Event → Run × List Bool
  | [] => (s, [])
  | Event.more d :: rest =>
    let step := s.More d
    let next := execTrace step.1 rest
    (next.1, step.2 :: next.2)
  | Event.stop :: rest => execTrace s.Stop rest

/-- Number of `More` calls in a history that returned true. -/
def trueCount (bs : List Bool) : Nat :=
  bs.count true

theorem More_stopped_eq (s : Run) (d : Bool) : (s.More d).1.stopped = s.stopped := by
  unfold Run.More
  split
  · rfl
  · split
    · rfl
    · split
      · split <;> rfl
      · rfl

theorem More_of_stopped (s : Run) (d : Bool) (h : s.stopped = true) :
    s.More d = (s, false) := by
  unfold Run.More
  simp [h]

theorem execTrace_stopped_all_false (s : Run) (tr : List Event) (h : s.stopped = true) :
    ∀ b ∈ (execTrace s tr).2, b = false := by
  induction tr generalizing s with
  | nil => intro b hb; simp [execTrace] at hb
  | cons e rest ih =>
    intro b hb
    cases e with
    | more d =>
      simp only [execTrace, More_of_stopped s d h, List.mem_cons] at hb
      rcases hb with hb | hb
      · exact hb
      · exact ih s h b hb
    | stop =>
      simp only [execTrace] at hb
      exact ih s.Stop (by simp [Run.Stop]) b hb

theorem More_remaining_le (s : Run) (d : Bool) : (s.More d).1.remaining ≤ s.remaining := by
  unfold Run.More
  split
  · exact le_refl _
  · split
    · exact le_refl _
    · split
      · split
        · exact le_refl _
        · exact Nat.sub_le _ _
      · exact le_refl _

theorem More_hasMax_eq (s : Run) (d : Bool) : (s.More d).1.hasMax = s.hasMax := by
  unfold Run.More
  split
  · rfl
  · split
    · rfl
    · split
      · split <;> rfl
      · rfl

theorem trueCount_cons (b : Bool) (bs : List Bool) :
    trueCount (b :: bs) = (if b = true then 1 else 0) + trueCount bs := by
  cases b <;> simp [trueCount, List.count_cons] <;> omega

/-- A `More` call that returns true decrements the counter when one exists. -/
theorem More_true_remaining (s : Run) (d : Bool) (hmax : s.hasMax = true)
    (hres : (s.More d).2 = true) : (s.More d).1.remaining + 1 ≤ s.remaining := by
  by_cases h1 : s.stopped = true
  · simp [Run.More, h1] at hres
  · by_cases h2 : (s.hasDeadline && d) = true
    · simp [Run.More, h1, h2] at hres
    · by_cases h3 : s.remaining = 0
      · simp [Run.More, h1, h2, h3, hmax] at hres
      · simp [Run.More, h1, h2, h3, hmax]
        omega

/-- Budget invariant: when a request counter exists, a history can yield at
most `remaining` true returns. -/
theorem execTrace_trueCount_le (s : Run) (tr : List Event) (hmax : s.hasMax = true) :
    trueCount (execTrace s tr).2 ≤ s.remaining := by
  induction tr generalizing s with
  | nil => simp [execTrace, trueCount]
  | cons e rest ih =>
    cases e with
    | more d =>
      have hmax' : (s.More d).1.hasMax = true := by rw [More_hasMax_eq]; exact hmax
      have hrec := ih (s.More d).1 hmax'
      have hshape : (execTrace s (Event.more d :: rest)).2
          = (s.More d).2 :: (execTrace (s.More d).1 rest).2 := rfl
      rw [hshape, trueCount_cons]
      by_cases hres : (s.More d).2 = true
      · have := More_true_remaining s d hmax hres
        rw [if_pos hres]
        omega
      · have hle := More_remaining_le s d
        rw [if_neg hres]
        omega
    | stop =>
      have hshape : execTrace s (Event.stop :: rest) = execTrace s.Stop rest := rfl
      rw [hshape]
      exact ih s.Stop hmax

end limiter

/-- `BenchmarkOptions` fields used by the modelled paths of `runBenchmark`.
`MaxDuration` is a Go `time.Duration`, i.e. a signed integer count of
nanoseconds; `MaxRequests` and `RPS` are Go `int`s. -/
structure BenchmarkOptions where
  maxRequests : Int
  maxDurationNs : Int
  rps : Int
  format : String
  deriving DecidableEq, Repr

/-- `errNegativeDuration` from the source. -/
def errNegativeDuration : String := "duration cannot be negative"

/-- `errNegativeMaxReqs` from the source. -/
def errNegativeMaxReqs : String := "max requests cannot be negative"

/-- `BenchmarkOptions.validate` from the source: reject a negative duration,
then a negative request count. -/
def BenchmarkOptions.validate (o : BenchmarkOptions) : Except String Unit :=
  if o.maxDurationNs < 0 then Except.error errNegativeDuration
  else if o.maxRequests < 0 then Except.error errNegativeMaxReqs
  else Except.ok ()

/-- `BenchmarkOptions.enabled` from the source: at least one of MaxDuration
and MaxRequests must be non-zero. -/
def BenchmarkOptions.enabled (o : BenchmarkOptions) : Bool :=
  o.maxDurationNs != 0 || o.maxRequests != 0

/-- The RPS × duration pre-cap on MaxRequests from `runBenchmark`:
`rpsMax := int(float64(opts.RPS) * opts.MaxDuration.Seconds())`, applied
when `rpsMax < opts.MaxRequests || opts.MaxRequests == 0`.  On the guarded
path both factors are positive, where Go's float64-truncation computes the
floor of the exact product; `Seconds()` divides nanoseconds by 10^9, so
`rpsMax` is the integer division `rps * durNs / 10^9` (the modelled values
stay far below 2^53, keeping the float64 arithmetic exact). -/
def capMaxRequests (rps maxDurationNs maxRequests : Int) : Int :=
  if 0 < rps ∧ 0 < maxDurationNs then
    if rps * maxDurationNs / 1000000000 < maxRequests ∨ maxRequests = 0 then
      rps * maxDurationNs / 1000000000
    else maxRequests
  else maxRequests

/-- Spec-side formulation of the cap value: ⌊RPS × duration-in-seconds⌋ as
an exact rational floor. -/
def rpsCapSpec (rps maxDurationNs : Int) : Int :=
  ⌊((rps : ℚ) * ((maxDurationNs : ℚ) / 1000000000))⌋

/-- Outcome of the prefix of `runBenchmark` that runs before any warm-up
call, statsd client, worker or output: either it terminates fatally from
validation, returns silently (disabled run: no warm-up, no calls, no
result output), or proceeds with the possibly capped MaxRequests. -/
inductive RunStart
  | fatal (msg : String)
  | noop
  | proceed (cappedMaxRequests : Int)
  deriving DecidableEq, Repr

/-- The validation / no-op / cap prefix of `runBenchmark` from the source. -/
def runBenchmarkStart (o : BenchmarkOptions) : RunStart :=
  match o.validate with
  | Except.error e => RunStart.fatal ("Invalid benchmarking options: " ++ e)
  | Except.ok _ =>
    if !o.enabled then RunStart.noop
    else RunStart.proceed (capMaxRequests o.rps o.maxDurationNs o.maxRequests)

/-- ASCII lowering, the behaviour of Go's `strings.ToLower` on the ASCII
format strings at issue. -/
def asciiToLower (s : String) : String :=
  String.mk (s.data.map fun c => if 'A' ≤ c ∧ c ≤ 'Z' then Char.ofNat (c.toNat + 32) else c)

/-- Result of the format dispatch in `runBenchmark`: whether structured
(JSON) output was selected, and how many warnings were printed. -/
structure FormatChoice where
  formatAsJSON : Bool
  warnings : Nat
  deriving DecidableEq, Repr

/-- The format dispatch from `runBenchmark`:
`switch format := strings.ToLower(opts.Format); format` with cases
`"text", ""` (plaintext), `"json"` (structured), and a default that warns
once and prints plaintext. -/
def chooseFormat (format : String) : FormatChoice :=
  match asciiToLower format with
  | "text" => { formatAsJSON := false, warnings := 0 }
  | "" => { formatAsJSON := false, warnings := 0 }
  | "json" => { formatAsJSON := true, warnings := 0 }
  | _ => { formatAsJSON := false, warnings := 1 }

/-- Modelled from the spec: the per-worker `benchmarkState` aggregate (its
implementation is not among the sources here, only its callers are).  Per
the spec it holds the total request count, a latency histogram, an error
counter keyed by a stable category string, and stream message counters.
The histogram buckets and the error map are modelled extensionally, i.e.
by their per-bucket / per-key counts. -/
@[ext]
structure benchmarkState where
  totalRequests : Nat
  latencyHist : Nat → Nat
  errorsCount : String → Nat
  totalStreamMessagesSent : Nat
  totalStreamMessagesReceived : Nat

/-- Modelled from the spec: `benchmarkState.merge` — the histogram merges
element-wise, error categories sum per key, totals and stream counts sum. -/
def benchmarkState.merge (a b : benchmarkState) : benchmarkState :=
  { totalRequests := a.totalRequests + b.totalRequests
    latencyHist := fun i => a.latencyHist i + b.latencyHist i
    errorsCount := fun k => a.errorsCount k + b.errorsCount k
    totalStreamMessagesSent := a.totalStreamMessagesSent + b.totalStreamMessagesSent
    totalStreamMessagesReceived :=
      a.totalStreamMessagesReceived + b.totalStreamMessagesReceived }

/-- The controller's merge loop from `runBenchmark`: all remaining states
are merged left-to-right into the first. -/
def mergeAll (first : benchmarkState) (rest : List benchmarkState) : benchmarkState :=
  rest.foldl benchmarkState.merge first

/-- The fixed quantile vector `_quantiles` from the source, as exact
rationals (each value is exactly representable to four decimal places, so
the float64 literals of the source denote these values at the printed
precision). -/
def _quantiles : List ℚ :=
  [1/2, 9/10, 19/20, 99/100, 999/1000, 1999/2000, 1]

/-- Left-pad a numeral string with zeros to the given width. -/
def padZeros (width : Nat) (s : String) : String :=
  String.mk (List.replicate (width - s.length) '0') ++ s

/-- `fmt.Sprintf("%.4f", x)` for a non-negative value: round to four
decimal places and render with exactly four fractional digits. -/
def formatFour (x : ℚ) : String :=
  toString ((⌊x * 10000 + 1/2⌋).toNat / 10000) ++ "." ++
    padZeros 4 (toString ((⌊x * 10000 + 1/2⌋).toNat % 10000))

/-- The key under which a quantile appears in the structured `latencies`
map: `fmt.Sprintf("%.4f", quantile)`. -/
def formatQuantileKey (q : ℚ) : String :=
  formatFour q

/-- The `latencies` map built by `outputJSON` in the source: one entry per
fixed quantile, keyed by the four-decimal rendering of the quantile, whose
value is the latency rendered by Go's `time.Duration.String` (kept
abstract here as the supplied rendering of each quantile's latency). -/
def outputJSONLatencies (latencyStr : ℚ → String) : List (String × String) :=
  _quantiles.map fun q => (formatQuantileKey q, latencyStr q)

/-- `ErrorSummary` from the source; `ErrorsCount` (a Go map) is carried as
an association list so that its keys can be enumerated for printing, and
`ErrorRate` (a float64) as an exact rational. -/
structure ErrorSummary where
  totalErrors : Nat
  errorRate : ℚ
  errorsCount : List (String × Nat)
  deriving DecidableEq, Repr

/-- Modelled from the spec: `benchmarkState.getErrorSummary` (not among the
sources here; `BenchmarkOutput` documents that `ErrorSummary` "is nil if no
errors have been encountered", and the spec fixes
`errorRate == totalErrors / totalRequests`).  Takes the merged state's
total request count and error map (as an association list with distinct
keys and positive counts). -/
def getErrorSummary (totalRequests : Nat) (errors : List (String × Nat)) :
    Option ErrorSummary :=
  let totalErrors := (errors.map Prod.snd).sum
  if totalErrors = 0 then none
  else some
    { totalErrors := totalErrors
      errorRate := (totalErrors : ℚ) / (totalRequests : ℚ)
      errorsCount := errors }

/-- Insert a string into a ≤-sorted list, keeping it sorted. -/
def insertSorted (x : String) : List String → List String
  | [] => [x]
  | y :: ys => if x ≤ y then x :: y :: ys else y :: insertSorted x ys

/-- Modelled from the spec: `sorted.MapKeys` (the `sorted` package is not
among the sources here) — the map's keys in ascending order. -/
def sortedMapKeys (m : List (String × Nat)) : List String :=
  (m.map Prod.fst).foldr insertSorted []

/-- First match of a key in an association list, with default 0 — the Go
map read `errorSum.ErrorsCount[k]`. -/
def lookupCount (m : List (String × Nat)) (k : String) : Nat :=
  match m.lookup k with
  | some v => v
  | none => 0

/-- `printErrors` from the source, as the list of printed lines: nothing
when the summary is nil; otherwise a header, one line per category in
`sorted.MapKeys` order, and the two totals lines.  Numeric padding of the
`%4d` verb is abstracted to plain rendering. -/
def printErrors (errorSum : Option ErrorSummary) : List String :=
  match errorSum with
  | none => []
  | some es =>
    "Errors:" ::
      ((sortedMapKeys es.errorsCount).map fun k =>
        "  " ++ toString (lookupCount es.errorsCount k) ++ ": " ++ k)
    ++ ["Total errors: " ++ toString es.totalErrors,
        "Error rate: " ++ formatFour es.errorRate ++ "%"]

/-- The category keys of the plaintext Errors block, in printed order. -/
def printErrorsKeyOrder (errorSum : Option ErrorSummary) : List String :=
  match errorSum with
  | none => []
  | some es => sortedMapKeys es.errorsCount

/-- The call method types of the `encoding` package. -/
inductive MethodType
  | unary
  | clientStream
  | serverStream
  | bidiStream
  deriving DecidableEq, Repr

/-- `StreamSummary` from the source. -/
structure StreamSummary where
  totalStreamMessagesSent : Nat
  totalStreamMessagesReceived : Nat
  deriving DecidableEq, Repr

/-- The stream-summary construction in `runBenchmark`: populated only when
`b.CallMethodType() != encoding.Unary`; otherwise it stays nil and is
omitted from the JSON output (`omitempty`) and from the plaintext lines. -/
def mkStreamSummary (callMethodType : MethodType) (sent received : Nat) :
    Option StreamSummary :=
  if callMethodType ≠ MethodType.unary then
    some { totalStreamMessagesSent := sent, totalStreamMessagesReceived := received }
  else none

/-- The two trailing stream lines of `outputPlaintext`: printed only when
the stream summary is non-nil. -/
def plaintextStreamLines (streamSummary : Option StreamSummary) : List String :=
  match streamSummary with
  | none => []
  | some ss =>
    ["Total stream messages sent:     " ++ toString ss.totalStreamMessagesSent,
     "Total stream messages received: " ++ toString ss.totalStreamMessagesReceived]

/-- `Summary` from the source, with the float64 fields as exact rationals. -/
structure Summary where
  elapsedTimeSeconds : ℚ
  totalRequests : Nat
  rps : ℚ
  deriving DecidableEq, Repr

/-- `math.Round` for a non-negative argument (Go rounds half away from
zero), scaled to round to hundredths: `(math.Round(x*100))/100`. -/
def roundHundredths (x : ℚ) : ℚ :=
  (⌊x * 100 + 1/2⌋ : ℚ) / 100

/-- The summary construction in `runBenchmark`: the elapsed duration (in
nanoseconds) is snapped via `total / time.Millisecond * time.Millisecond`
(integer division) before `.Seconds()`, and
`rps := float64(totalRequests) / total.Seconds()` is rounded to the
hundredths place.  The float64 divisions are modelled exactly. -/
def mkSummary (totalRequests totalNs : Nat) : Summary :=
  { elapsedTimeSeconds := ((totalNs / 1000000 * 1000000 : Nat) : ℚ) / 1000000000
    totalRequests := totalRequests
    rps := roundHundredths ((totalRequests : ℚ) / ((totalNs : ℚ) / 1000000000)) }

theorem rpsCapSpec_eq_ediv (rps durNs : Int) :
    rpsCapSpec rps durNs = rps * durNs / 1000000000 := by
  unfold rpsCapSpec
  have h1 : (rps : ℚ) * ((durNs : ℚ) / 1000000000)
      = ((rps * durNs : ℤ) : ℚ) / ((1000000000 : ℕ) : ℚ) := by
    push_cast
    ring
  rw [h1, Rat.floor_intCast_div_natCast]
  norm_num

/-- C1: for a run limiter created with `MaxRequests = N > 0`, any
interleaving of atomic `More()`/`Stop()` events yields at most `N` true
returns from `More()`; once `Stop()` has happened every later `More()`
returns false; and `Stop()` is idempotent. -/
theorem claim_C1_limiter_budget_and_stop (n : Nat) (hn : 0 < n)
    (rps durNs : Int) (tr pre post : List limiter.Event) :
    limiter.trueCount (limiter.execTrace (limiter.New (n : Int) rps durNs) tr).2 ≤ n
    ∧ (∀ b ∈ (limiter.execTrace
        ((limiter.execTrace (limiter.New (n : Int) rps durNs) pre).1.Stop) post).2,
        b = false)
    ∧ (∀ s : limiter.Run, s.Stop.Stop = s.Stop) := by
  refine ⟨?_, ?_, fun s => rfl⟩
  · have hmax : (limiter.New (n : Int) rps durNs).hasMax = true := by
      simp only [limiter.New, decide_eq_true_iff]
      exact_mod_cast hn
    have hle := limiter.execTrace_trueCount_le _ tr hmax
    have hrem : (limiter.New (n : Int) rps durNs).remaining = n := by
      simp [limiter.New]
    omega
  · exact limiter.execTrace_stopped_all_false _ post rfl

/-- C1 witness: `N = 2`, three `More` calls give at most two true returns,
`More` after `Stop` returns false, and `Stop` is idempotent. -/
theorem claim_C1_limiter_budget_and_stop_witness :
    0 < 2
    ∧ (limiter.trueCount (limiter.execTrace (limiter.New ((2 : Nat) : Int) 0 0)
        [limiter.Event.more false, limiter.Event.more false, limiter.Event.more false]).2 ≤ 2
      ∧ (∀ b ∈ (limiter.execTrace
          ((limiter.execTrace (limiter.New ((2 : Nat) : Int) 0 0)
            [limiter.Event.more false]).1.Stop)
          [limiter.Event.more false, limiter.Event.more false]).2, b = false)
      ∧ (∀ s : limiter.Run, s.Stop.Stop = s.Stop)) :=
  ⟨by decide,
   claim_C1_limiter_budget_and_stop 2 (by decide) 0 0
     [limiter.Event.more false, limiter.Event.more false, limiter.Event.more false]
     [limiter.Event.more false]
     [limiter.Event.more false, limiter.Event.more false]⟩

/-- C2: with `RPS > 0` and `MaxDuration > 0`, `runBenchmark` replaces
`MaxRequests` by ⌊RPS × duration-in-seconds⌋ exactly when that floor is
strictly below the caller's `MaxRequests` or the caller's `MaxRequests` is
zero, and leaves it unchanged otherwise; with `RPS = 0` or
`MaxDuration = 0` no cap is applied. -/
theorem claim_C2_rps_duration_cap (rps durNs maxReq : Int) :
    (0 < rps → 0 < durNs →
      ((rpsCapSpec rps durNs < maxReq ∨ maxReq = 0 →
          capMaxRequests rps durNs maxReq = rpsCapSpec rps durNs)
        ∧ (¬(rpsCapSpec rps durNs < maxReq ∨ maxReq = 0) →
          capMaxRequests rps durNs maxReq = maxReq)))
    ∧ (rps = 0 ∨ durNs = 0 → capMaxRequests rps durNs maxReq = maxReq) := by
  constructor
  · intro hr hd
    have he := rpsCapSpec_eq_ediv rps durNs
    constructor
    · intro hc
      simp only [capMaxRequests, if_pos (show 0 < rps ∧ 0 < durNs from ⟨hr, hd⟩)]
      rw [← he, if_pos hc]
    · intro hc
      simp only [capMaxRequests, if_pos (show 0 < rps ∧ 0 < durNs from ⟨hr, hd⟩)]
      rw [← he, if_neg hc]
  · intro h0
    have hng : ¬(0 < rps ∧ 0 < durNs) := by omega
    simp [capMaxRequests, hng]

/-- C2 witness: `RPS = 2`, duration 3 s, caller bound 100: the cap 6 is
applied; `RPS = 0` leaves the bound unchanged. -/
theorem claim_C2_rps_duration_cap_witness :
    rpsCapSpec 2 3000000000 < 100
    ∧ capMaxRequests 2 3000000000 100 = rpsCapSpec 2 3000000000
    ∧ capMaxRequests 0 3000000000 100 = 100 := by
  have hspec : rpsCapSpec 2 3000000000 = 6 := by
    unfold rpsCapSpec
    norm_num
  refine ⟨by rw [hspec]; norm_num, ?_, ?_⟩
  · exact ((claim_C2_rps_duration_cap 2 3000000000 100).1 (by norm_num) (by norm_num)).1
      (Or.inl (by rw [hspec]; norm_num))
  · exact (claim_C2_rps_duration_cap 0 3000000000 100).2 (Or.inl rfl)

/-- C3: `runBenchmark` terminates fatally before any call when
`MaxDuration < 0` ("duration cannot be negative") or `MaxRequests < 0`
("max requests cannot be negative", checked after the duration), and when
both `MaxDuration` and `MaxRequests` are zero it returns silently with no
warm-up, no calls and no output. -/
theorem claim_C3_validate_and_noop (o : BenchmarkOptions) :
    (o.maxDurationNs < 0 →
      runBenchmarkStart o
        = RunStart.fatal ("Invalid benchmarking options: " ++ errNegativeDuration))
    ∧ (0 ≤ o.maxDurationNs → o.maxRequests < 0 →
      runBenchmarkStart o
        = RunStart.fatal ("Invalid benchmarking options: " ++ errNegativeMaxReqs))
    ∧ (o.maxDurationNs = 0 → o.maxRequests = 0 → runBenchmarkStart o = RunStart.noop) := by
  refine ⟨fun h => ?_, fun h1 h2 => ?_, fun h1 h2 => ?_⟩
  · simp [runBenchmarkStart, BenchmarkOptions.validate, h]
  · simp [runBenchmarkStart, BenchmarkOptions.validate, h2,
      show ¬(o.maxDurationNs < 0) by omega]
  · simp [runBenchmarkStart, BenchmarkOptions.validate, BenchmarkOptions.enabled, h1, h2]

/-- C3 witness: the three concrete behaviours at duration −1 ns, request
count −1, and the all-zero (disabled) options. -/
theorem claim_C3_validate_and_noop_witness :
    runBenchmarkStart { maxRequests := 0, maxDurationNs := -1, rps := 0, format := "" }
      = RunStart.fatal ("Invalid benchmarking options: " ++ errNegativeDuration)
    ∧ runBenchmarkStart { maxRequests := -1, maxDurationNs := 0, rps := 0, format := "" }
      = RunStart.fatal ("Invalid benchmarking options: " ++ errNegativeMaxReqs)
    ∧ runBenchmarkStart { maxRequests := 0, maxDurationNs := 0, rps := 0, format := "" }
      = RunStart.noop :=
  ⟨(claim_C3_validate_and_noop _).1 (by norm_num),
   (claim_C3_validate_and_noop _).2.1 (by norm_num) (by norm_num),
   (claim_C3_validate_and_noop _).2.2 rfl rfl⟩

theorem merge_assoc (a b c : benchmarkState) :
    (a.merge b).merge c = a.merge (b.merge c) := by
  unfold benchmarkState.merge
  ext <;> simp <;> ring

theorem merge_comm (a b : benchmarkState) : a.merge b = b.merge a := by
  unfold benchmarkState.merge
  ext <;> simp <;> ring

/-- C4: `benchmarkState.merge` is associative and commutative (the
histogram merges element-wise, error categories sum per key, the counters
and the total sum), so the controller's left-to-right merge of the worker
states into the first is invariant under reordering the merged states. -/
theorem claim_C4_merge_assoc_comm :
    (∀ a b c : benchmarkState, (a.merge b).merge c = a.merge (b.merge c))
    ∧ (∀ a b : benchmarkState, a.merge b = b.merge a)
    ∧ (∀ (first : benchmarkState) (l₁ l₂ : List benchmarkState),
        l₁.Perm l₂ → mergeAll first l₁ = mergeAll first l₂) := by
  refine ⟨merge_assoc, merge_comm, fun first l₁ l₂ hperm => ?_⟩
  unfold mergeAll
  exact hperm.foldl_eq' (fun x _ y _ z => by
    rw [merge_assoc, merge_assoc, merge_comm x y]) first

/-- C4 witness: a concrete permuted pair of worker states merges to the
same aggregate. -/
theorem claim_C4_merge_assoc_comm_witness :
    mergeAll
        { totalRequests := 0, latencyHist := fun _ => 0, errorsCount := fun _ => 0
          totalStreamMessagesSent := 0, totalStreamMessagesReceived := 0 }
        [{ totalRequests := 1, latencyHist := fun _ => 1, errorsCount := fun _ => 0
           totalStreamMessagesSent := 2, totalStreamMessagesReceived := 3 },
         { totalRequests := 4, latencyHist := fun _ => 0, errorsCount := fun _ => 5
           totalStreamMessagesSent := 6, totalStreamMessagesReceived := 7 }]
      = mergeAll
        { totalRequests := 0, latencyHist := fun _ => 0, errorsCount := fun _ => 0
          totalStreamMessagesSent := 0, totalStreamMessagesReceived := 0 }
        [{ totalRequests := 4, latencyHist := fun _ => 0, errorsCount := fun _ => 5
           totalStreamMessagesSent := 6, totalStreamMessagesReceived := 7 },
         { totalRequests := 1, latencyHist := fun _ => 1, errorsCount := fun _ => 0
           totalStreamMessagesSent := 2, totalStreamMessagesReceived := 3 }] :=
  claim_C4_merge_assoc_comm.2.2 _ _ _ (List.Perm.swap _ _ _)

theorem formatQuantileKey_half : formatQuantileKey (1/2) = "0.5000" := by
  have h : ⌊(1/2 : ℚ) * 10000 + 1/2⌋ = 5000 := by norm_num
  simp only [formatQuantileKey, formatFour, h]
  decide

theorem formatQuantileKey_p90 : formatQuantileKey (9/10) = "0.9000" := by
  have h : ⌊(9/10 : ℚ) * 10000 + 1/2⌋ = 9000 := by norm_num
  simp only [formatQuantileKey, formatFour, h]
  decide

theorem formatQuantileKey_p95 : formatQuantileKey (19/20) = "0.9500" := by
  have h : ⌊(19/20 : ℚ) * 10000 + 1/2⌋ = 9500 := by norm_num
  simp only [formatQuantileKey, formatFour, h]
  decide

theorem formatQuantileKey_p99 : formatQuantileKey (99/100) = "0.9900" := by
  have h : ⌊(99/100 : ℚ) * 10000 + 1/2⌋ = 9900 := by norm_num
  simp only [formatQuantileKey, formatFour, h]
  decide

theorem formatQuantileKey_p999 : formatQuantileKey (999/1000) = "0.9990" := by
  have h : ⌊(999/1000 : ℚ) * 10000 + 1/2⌋ = 9990 := by norm_num
  simp only [formatQuantileKey, formatFour, h]
  decide

theorem formatQuantileKey_p9995 : formatQuantileKey (1999/2000) = "0.9995" := by
  have h : ⌊(1999/2000 : ℚ) * 10000 + 1/2⌋ = 9995 := by norm_num
  simp only [formatQuantileKey, formatFour, h]
  decide

theorem formatQuantileKey_one : formatQuantileKey 1 = "1.0000" := by
  have h : ⌊(1 : ℚ) * 10000 + 1/2⌋ = 10000 := by norm_num
  simp only [formatQuantileKey, formatFour, h]
  decide

/-- C5: the structured `latencies` field has exactly one entry per fixed
quantile {0.5, 0.9, 0.95, 0.99, 0.999, 0.9995, 1.0}, keyed by its
four-decimal rendering ("0.5000" … "1.0000") and carrying that quantile's
latency rendered as a duration string; the seven keys are distinct, in
particular 0.999 and 0.9995 get distinct keys. -/
theorem claim_C5_json_latency_keys (latencyStr : ℚ → String) :
    outputJSONLatencies latencyStr =
      [("0.5000", latencyStr (1/2)), ("0.9000", latencyStr (9/10)),
       ("0.9500", latencyStr (19/20)), ("0.9900", latencyStr (99/100)),
       ("0.9990", latencyStr (999/1000)), ("0.9995", latencyStr (1999/2000)),
       ("1.0000", latencyStr 1)]
    ∧ ((outputJSONLatencies latencyStr).map Prod.fst).Nodup
    ∧ formatQuantileKey (999/1000) ≠ formatQuantileKey (1999/2000) := by
  have h1 : outputJSONLatencies latencyStr =
      [("0.5000", latencyStr (1/2)), ("0.9000", latencyStr (9/10)),
       ("0.9500", latencyStr (19/20)), ("0.9900", latencyStr (99/100)),
       ("0.9990", latencyStr (999/1000)), ("0.9995", latencyStr (1999/2000)),
       ("1.0000", latencyStr 1)] := by
    simp only [outputJSONLatencies, _quantiles, List.map, formatQuantileKey_half,
      formatQuantileKey_p90, formatQuantileKey_p95, formatQuantileKey_p99,
      formatQuantileKey_p999, formatQuantileKey_p9995, formatQuantileKey_one]
  refine ⟨h1, ?_, ?_⟩
  · rw [h1]
    simp only [List.map]
    decide
  · rw [formatQuantileKey_p999, formatQuantileKey_p9995]
    decide

theorem mem_insertSorted (x a : String) (l : List String) :
    a ∈ insertSorted x l ↔ a = x ∨ a ∈ l := by
  induction l with
  | nil => simp [insertSorted]
  | cons y ys ih =>
    unfold insertSorted
    split <;> simp [List.mem_cons, ih] <;> tauto

theorem sorted_insertSorted (x : String) (l : List String)
    (h : l.Sorted (· ≤ ·)) : (insertSorted x l).Sorted (· ≤ ·) := by
  induction l with
  | nil => simp [insertSorted]
  | cons y ys ih =>
    rw [List.sorted_cons] at h
    obtain ⟨hy, hys⟩ := h
    unfold insertSorted
    split
    · rename_i hxy
      rw [List.sorted_cons]
      refine ⟨?_, ?_⟩
      · intro b hb
        rcases List.mem_cons.mp hb with rfl | hb
        · exact hxy
        · exact le_trans hxy (hy b hb)
      · rw [List.sorted_cons]
        exact ⟨hy, hys⟩
    · rename_i hxy
      rw [List.sorted_cons]
      refine ⟨?_, ih hys⟩
      intro b hb
      rcases (mem_insertSorted x b ys).mp hb with rfl | hb
      · exact le_of_not_le hxy
      · exact hy b hb

theorem sorted_foldr_insertSorted (l : List String) :
    (l.foldr insertSorted []).Sorted (· ≤ ·) := by
  induction l with
  | nil => simp
  | cons x xs ih => exact sorted_insertSorted x _ ih

theorem sorted_sortedMapKeys (m : List (String × Nat)) :
    (sortedMapKeys m).Sorted (· ≤ ·) :=
  sorted_foldr_insertSorted _

/-- C6: the error summary is nil — and the plaintext Errors block empty —
exactly when the total error count is zero; a present summary has
`errorRate = totalErrors / totalRequests` (so `errorRate × totalRequests =
totalErrors` when `totalRequests > 0`); and the plaintext Errors block
lists the categories in ascending key order. -/
theorem claim_C6_error_summary (totalRequests : Nat) (errors : List (String × Nat)) :
    (getErrorSummary totalRequests errors = none ↔ (errors.map Prod.snd).sum = 0)
    ∧ (printErrors (getErrorSummary totalRequests errors) = []
        ↔ (errors.map Prod.snd).sum = 0)
    ∧ (∀ es : ErrorSummary, getErrorSummary totalRequests errors = some es →
        0 < totalRequests →
        es.errorRate = (es.totalErrors : ℚ) / (totalRequests : ℚ)
        ∧ es.errorRate * (totalRequests : ℚ) = (es.totalErrors : ℚ))
    ∧ List.Sorted (· ≤ ·) (printErrorsKeyOrder (getErrorSummary totalRequests errors)) := by
  refine ⟨?_, ?_, ?_, ?_⟩
  · unfold getErrorSummary
    by_cases h : (errors.map Prod.snd).sum = 0
    · simp [h]
    · simp [h]
  · unfold printErrors getErrorSummary
    by_cases h : (errors.map Prod.snd).sum = 0
    · simp [h]
    · simp [h]
  · intro es hes htr
    unfold getErrorSummary at hes
    by_cases h : (errors.map Prod.snd).sum = 0
    · simp [h] at hes
    · rw [if_neg h] at hes
      cases hes
      have hcast : ((totalRequests : ℚ)) ≠ 0 := Nat.cast_ne_zero.mpr htr.ne'
      refine ⟨rfl, ?_⟩
      exact div_mul_cancel₀ _ hcast
  · cases h : getErrorSummary totalRequests errors with
    | none => simp [printErrorsKeyOrder]
    | some es =>
      simp only [printErrorsKeyOrder]
      exact sorted_sortedMapKeys _

/-- C6 witness: two error categories, three total errors out of four
requests. -/
theorem claim_C6_error_summary_witness :
    ¬ (getErrorSummary 4 [("b", 2), ("a", 1)] = none)
    ∧ List.Sorted (· ≤ ·) (printErrorsKeyOrder (getErrorSummary 4 [("b", 2), ("a", 1)]))
    ∧ ((getErrorSummary 4 [("b", 2), ("a", 1)]).map
        (fun es => es.errorRate * ((4 : Nat) : ℚ) - (es.totalErrors : ℚ))) = some 0 := by
  have h := claim_C6_error_summary 4 [("b", 2), ("a", 1)]
  have hsum : (([("b", 2), ("a", 1)] : List (String × Nat)).map Prod.snd).sum = 3 := rfl
  refine ⟨?_, h.2.2.2, ?_⟩
  · intro hnone
    have h0 := h.1.mp hnone
    rw [hsum] at h0
    exact absurd h0 (by norm_num)
  · cases hg : getErrorSummary 4 [("b", 2), ("a", 1)] with
    | none =>
      have h0 := h.1.mp hg
      rw [hsum] at h0
      exact absurd h0 (by norm_num)
    | some es =>
      have hrate := (h.2.2.1 es hg (by norm_num)).2
      rw [Option.map_some', sub_eq_zero.mpr hrate]

/-- C7: the stream summary is present in the report exactly when the
benchmark caller's method type is not Unary; for a unary caller it is nil,
absent from JSON output (`omitempty` on a nil pointer) and contributes no
plaintext lines, and for a streaming caller it carries the two counters
and the two plaintext lines. -/
theorem claim_C7_stream_summary (mt : MethodType) (sent received : Nat) :
    ((mkStreamSummary mt sent received).isSome = true ↔ mt ≠ MethodType.unary)
    ∧ (mt = MethodType.unary →
        mkStreamSummary mt sent received = none
        ∧ plaintextStreamLines (mkStreamSummary mt sent received) = [])
    ∧ (mt ≠ MethodType.unary →
        mkStreamSummary mt sent received
          = some { totalStreamMessagesSent := sent, totalStreamMessagesReceived := received }
        ∧ plaintextStreamLines (mkStreamSummary mt sent received)
          = ["Total stream messages sent:     " ++ toString sent,
             "Total stream messages received: " ++ toString received]) := by
  cases mt <;> simp [mkStreamSummary, plaintextStreamLines]

/-- C7 witness: a unary caller yields no stream summary; a bidirectional
streaming caller yields the two counters and the two lines. -/
theorem claim_C7_stream_summary_witness :
    mkStreamSummary MethodType.unary 5 7 = none
    ∧ plaintextStreamLines (mkStreamSummary MethodType.unary 5 7) = []
    ∧ mkStreamSummary MethodType.bidiStream 5 7
      = some { totalStreamMessagesSent := 5, totalStreamMessagesReceived := 7 }
    ∧ plaintextStreamLines (mkStreamSummary MethodType.bidiStream 5 7)
      = ["Total stream messages sent:     " ++ toString 5,
         "Total stream messages received: " ++ toString 7] := by
  have h1 := (claim_C7_stream_summary MethodType.unary 5 7).2.1 rfl
  have h2 := (claim_C7_stream_summary MethodType.bidiStream 5 7).2.2 (by simp)
  exact ⟨h1.1, h1.2, h2.1, h2.2⟩

/-- C8: the reported elapsed time is the true elapsed wall time snapped
down to whole-millisecond granularity (a multiple of 1/1000 s, at most the
true value and less than 1 ms below it), and the reported RPS is
totalRequests divided by the elapsed seconds rounded to the hundredths
place (a multiple of 1/100 within 1/200 of the exact quotient). -/
theorem claim_C8_summary_rounding (totalRequests totalNs : Nat) (ht : 0 < totalNs) :
    (∃ ms : Nat, (mkSummary totalRequests totalNs).elapsedTimeSeconds = (ms : ℚ) / 1000)
    ∧ (mkSummary totalRequests totalNs).elapsedTimeSeconds ≤ (totalNs : ℚ) / 1000000000
    ∧ (totalNs : ℚ) / 1000000000 - (mkSummary totalRequests totalNs).elapsedTimeSeconds
        < 1/1000
    ∧ (mkSummary totalRequests totalNs).rps
        = roundHundredths ((totalRequests : ℚ) / ((totalNs : ℚ) / 1000000000))
    ∧ (∃ c : Nat, (mkSummary totalRequests totalNs).rps = (c : ℚ) / 100)
    ∧ |(totalRequests : ℚ) / ((totalNs : ℚ) / 1000000000)
        - (mkSummary totalRequests totalNs).rps| ≤ 1/200 := by
  have helapsed : (mkSummary totalRequests totalNs).elapsedTimeSeconds
      = ((totalNs / 1000000 * 1000000 : ℕ) : ℚ) / 1000000000 := rfl
  have hsplitNat : totalNs / 1000000 * 1000000 + totalNs % 1000000 = totalNs := by
    omega
  have hsplit : ((totalNs / 1000000 * 1000000 : ℕ) : ℚ)
      = (totalNs : ℚ) - ((totalNs % 1000000 : ℕ) : ℚ) := by
    rw [eq_sub_iff_add_eq]
    exact_mod_cast congrArg (Nat.cast (R := ℚ)) hsplitNat
  refine ⟨?_, ?_, ?_, rfl, ?_, ?_⟩
  · refine ⟨totalNs / 1000000, ?_⟩
    rw [helapsed]
    push_cast
    ring
  · rw [helapsed]
    have hle : (totalNs / 1000000 * 1000000 : ℕ) ≤ totalNs := Nat.div_mul_le_self _ _
    have : ((totalNs / 1000000 * 1000000 : ℕ) : ℚ) ≤ (totalNs : ℚ) := by
      exact_mod_cast hle
    linarith
  · rw [helapsed, hsplit]
    have hmod : ((totalNs % 1000000 : ℕ) : ℚ) < 1000000 := by
      exact_mod_cast Nat.mod_lt totalNs (show 0 < 1000000 by norm_num)
    linarith
  · set x : ℚ := (totalRequests : ℚ) / ((totalNs : ℚ) / 1000000000) with hx
    have hx0 : 0 ≤ x := by
      rw [hx]
      positivity
    have hf0 : 0 ≤ ⌊x * 100 + 1/2⌋ := by
      apply Int.floor_nonneg.mpr
      positivity
    refine ⟨(⌊x * 100 + 1/2⌋).toNat, ?_⟩
    show ((⌊x * 100 + 1/2⌋ : ℤ) : ℚ) / 100 = ((⌊x * 100 + 1/2⌋.toNat : ℕ) : ℚ) / 100
    congr 1
    exact_mod_cast (Int.toNat_of_nonneg hf0).symm
  · set x : ℚ := (totalRequests : ℚ) / ((totalNs : ℚ) / 1000000000) with hx
    show |x - roundHundredths x| ≤ 1/200
    unfold roundHundredths
    have h1 : ((⌊x * 100 + 1/2⌋ : ℤ) : ℚ) ≤ x * 100 + 1/2 := Int.floor_le _
    have h2 : x * 100 + 1/2 < ((⌊x * 100 + 1/2⌋ : ℤ) : ℚ) + 1 := Int.lt_floor_add_one _
    rw [abs_le]
    constructor <;> [linarith; linarith]

/-- C8 witness: 100 requests in 1.2345678 s: the elapsed time snaps to
1.234 s and the RPS rounds to 81.00. -/
theorem claim_C8_summary_rounding_witness :
    0 < 1234567800
    ∧ (mkSummary 100 1234567800).elapsedTimeSeconds ≤ (1234567800 : ℚ) / 1000000000
    ∧ |(100 : ℚ) / ((1234567800 : ℚ) / 1000000000) - (mkSummary 100 1234567800).rps|
        ≤ 1/200 := by
  have h := claim_C8_summary_rounding 100 1234567800 (by norm_num)
  refine ⟨by norm_num, ?_, ?_⟩
  · have := h.2.1
    exact_mod_cast this
  · have := h.2.2.2.2.2
    exact_mod_cast this

/-- C9 counterexample: the claim as stated demands a warning for every
Format value other than case-insensitive "json", exact "text" and the
empty string; but `runBenchmark` lowercases the value before matching, so
Format = "TEXT" selects plaintext with zero warnings. -/
theorem claim_C9_counterexample :
    ¬ (∀ f : String,
        (asciiToLower f = "json" → (chooseFormat f).formatAsJSON = true)
        ∧ ((f = "text" ∨ f = "") →
            chooseFormat f = { formatAsJSON := false, warnings := 0 })
        ∧ (asciiToLower f ≠ "json" → f ≠ "text" → f ≠ "" →
            (chooseFormat f).warnings = 1)) := by
  intro h
  have hwarn := (h "TEXT").2.2 (by decide) (by decide) (by decide)
  have : (chooseFormat "TEXT").warnings = 0 := by decide
  omega

/-- C9 (amended): after ASCII lowercasing of the Format value, "json"
selects structured output, "text" and the empty value select plaintext
with no warning, and every other value produces exactly one warning and
falls back to plaintext. -/
theorem claim_C9_format_dispatch (f : String) :
    (asciiToLower f = "json" → chooseFormat f = { formatAsJSON := true, warnings := 0 })
    ∧ ((asciiToLower f = "text" ∨ asciiToLower f = "") →
        chooseFormat f = { formatAsJSON := false, warnings := 0 })
    ∧ (asciiToLower f ≠ "json" → asciiToLower f ≠ "text" → asciiToLower f ≠ "" →
        chooseFormat f = { formatAsJSON := false, warnings := 1 }) := by
  unfold chooseFormat
  split
  · rename_i heq
    refine ⟨fun hj => ?_, fun _ => rfl, fun _ ht _ => absurd heq ht⟩
    rw [heq] at hj
    exact absurd hj (by decide)
  · rename_i heq
    refine ⟨fun hj => ?_, fun _ => rfl, fun _ _ he => absurd heq he⟩
    rw [heq] at hj
    exact absurd hj (by decide)
  · rename_i heq
    refine ⟨fun _ => rfl, fun hte => ?_, fun hj _ _ => absurd heq hj⟩
    rcases hte with hte | hte <;> rw [heq] at hte <;> exact absurd hte (by decide)
  · rename_i h1 h2 h3
    exact ⟨fun hj => absurd hj h3, fun hte => hte.elim (fun ht => absurd ht h1)
      (fun he => absurd he h2), fun _ _ _ => rfl⟩

/-- C9 witness: "Json" selects structured output, "TEXT" selects plaintext
with no warning, "xml" warns once and falls back to plaintext. -/
theorem claim_C9_format_dispatch_witness :
    chooseFormat "Json" = { formatAsJSON := true, warnings := 0 }
    ∧ chooseFormat "TEXT" = { formatAsJSON := false, warnings := 0 }
    ∧ chooseFormat "xml" = { formatAsJSON := false, warnings := 1 } :=
  ⟨(claim_C9_format_dispatch "Json").1 (by decide),
   (claim_C9_format_dispatch "TEXT").2.1 (Or.inl (by decide)),
   (claim_C9_format_dispatch "xml").2.2 (by decide) (by decide) (by decide)⟩

theorem unbounded_more_all_true (s : limiter.Run) (hstop : s.stopped = false)
    (hmax : s.hasMax = false) (k : Nat) :
    ∀ b ∈ (limiter.execTrace s (List.replicate k (limiter.Event.more false))).2,
      b = true := by
  induction k generalizing s with
  | zero =>
    intro b hb
    simp [limiter.execTrace] at hb
  | succ n ih =>
    intro b hb
    have hstep : s.More false = (s, true) := by
      unfold limiter.Run.More
      simp [hstop, hmax]
    have hshape : (limiter.execTrace s
        (List.replicate (n + 1) (limiter.Event.more false))).2
        = (s.More false).2 :: (limiter.execTrace (s.More false).1
            (List.replicate n (limiter.Event.more false))).2 := rfl
    rw [hshape, hstep] at hb
    rcases List.mem_cons.mp hb with rfl | hb
    · rfl
    · exact ih s hstop hmax b hb

/-- C10: when `RPS > 0`, `MaxDuration > 0` and ⌊RPS × seconds⌋ = 0 (e.g.
RPS = 1 with a 500 ms duration), the controller sets `MaxRequests` to 0
even when the caller supplied a positive bound, and the limiter treats a
zero `MaxRequests` as no request counter at all: every `More()` before the
deadline returns true, i.e. the run is bounded only by the deadline. -/
theorem claim_C10_zero_cap_unbounded (rps durNs maxReq : Int) (k : Nat)
    (hr : 0 < rps) (hd : 0 < durNs) (hm : 0 ≤ maxReq)
    (hcap : rpsCapSpec rps durNs = 0) :
    capMaxRequests rps durNs maxReq = 0
    ∧ (∀ b ∈ (limiter.execTrace (limiter.New 0 rps durNs)
        (List.replicate k (limiter.Event.more false))).2, b = true) := by
  constructor
  · have he := rpsCapSpec_eq_ediv rps durNs
    have hz : rps * durNs / 1000000000 = 0 := by
      rw [← he]
      exact hcap
    unfold capMaxRequests
    rw [if_pos (⟨hr, hd⟩ : 0 < rps ∧ 0 < durNs), hz]
    by_cases h0 : maxReq = 0
    · rw [if_pos (Or.inr h0)]
    · rw [if_pos (Or.inl (lt_of_le_of_ne hm (Ne.symm h0)))]
  · exact unbounded_more_all_true _ rfl rfl k

/-- C10 witness: RPS = 1 over 500 ms with a caller bound of 100 gives an
effective MaxRequests of 0, under which three `More()` calls before the
deadline all return true. -/
theorem claim_C10_zero_cap_unbounded_witness :
    capMaxRequests 1 500000000 100 = 0
    ∧ (∀ b ∈ (limiter.execTrace (limiter.New 0 1 500000000)
        (List.replicate 3 (limiter.Event.more false))).2, b = true) := by
  have hcap : rpsCapSpec 1 500000000 = 0 := by
    unfold rpsCapSpec
    norm_num
  exact claim_C10_zero_cap_unbounded 1 500000000 100 3
    (by norm_num) (by norm_num) (by norm_num) hcap
